import Mathlib

/-!
Verification of the live radio broadcast engine (RadioPlayer component).

The definitions below are a shallow embedding of the component's state
transitions.  Times are modelled as rationals (milliseconds for wall-clock
values, seconds for audio positions), the row store as a list of tracks,
and each handler or admin operation as a pure function from its inputs
(component state, store rows, payloads) to its outputs (new store rows,
local state, emitted toasts / store writes).
-/

/-- Track status as in the `RadioTrack` interface:
`'queued' | 'playing' | 'history' | ''`. -/
inductive TrackStatus
  | queued
  | playing
  | history
  | blank
deriving DecidableEq, Repr

/-- A row of `radio_tracks`, restricted to the fields the engine reads. -/
structure Track where
  id : String
  status : TrackStatus
  started_at : Option ℚ := none
  duration_seconds : Option ℚ := none
deriving DecidableEq, Repr

/-- Store update `update({ status: 'history' }).eq('id', tid)` issued by
`playTrack` for the previous track: note it does not touch `started_at`. -/
def setHistory (store : List Track) (tid : String) : List Track :=
  store.map fun t => if t.id = tid then { t with status := TrackStatus.history } else t

/-- Store update `update({ status: 'playing', started_at: now }).eq('id', tid)`
issued by `playTrack` for the target track. -/
def setPlaying (store : List Track) (tid : String) (now : ℚ) : List Track :=
  store.map fun t =>
    if t.id = tid then { t with status := TrackStatus.playing, started_at := some now } else t

/-- Effect of `playTrack(track)` on the `radio_tracks` rows.  The guard is
`if (!isAdmin) return;`.  The previous track demoted to history is the cached
`currentTrack` component state, passed here as an argument; the target row is
then set to playing with `started_at = now`. -/
def playTrack (isAdmin : Bool) (store : List Track) (currentTrack : Option Track)
    (target : Track) (now : ℚ) : List Track :=
  if !isAdmin then store
  else
    let s1 := match currentTrack with
      | some c => setHistory store c.id
      | none => store
    setPlaying s1 target.id now

/-- Effect of `pauseTrack()` on the `radio_tracks` rows:
`update({ status: 'queued', started_at: null }).eq('id', currentTrack.id)`,
guarded by `if (!isAdmin || !currentTrack) return;`. -/
def pauseTrack (isAdmin : Bool) (store : List Track) (currentTrack : Option Track) :
    List Track :=
  match isAdmin, currentTrack with
  | true, some c =>
      store.map fun t =>
        if t.id = c.id then { t with status := TrackStatus.queued, started_at := none } else t
  | _, _ => store

/-- Number of rows with status `playing`. -/
def countPlaying (store : List Track) : Nat :=
  (store.filter fun t => t.status == TrackStatus.playing).length

/-- Does the cached `currentTrack` name this row? -/
def cacheCovers (currentTrack : Option Track) (t : Track) : Bool :=
  match currentTrack with
  | some c => t.id == c.id
  | none => false

/-- Bool form of "the cached `currentTrack` covers every playing row". -/
def consistentCache (store : List Track) (currentTrack : Option Track) : Bool :=
  store.all fun t => !(t.status == TrackStatus.playing) || cacheCovers currentTrack t

/-- Bool form of "`started_at` is non-null exactly while status is playing". -/
def startedAtIffPlaying (store : List Track) : Bool :=
  store.all fun t => (t.started_at != none) == (t.status == TrackStatus.playing)

def trackX5 : Track := { id := "X", status := TrackStatus.playing, started_at := some 5 }

def trackY : Track := { id := "Y", status := TrackStatus.queued }

/-- Per-row form of `playTrack`'s two store updates, applied in order. -/
def playStep (currentTrack : Option Track) (targetId : String) (now : ℚ) (t : Track) : Track :=
  let t1 := match currentTrack with
    | some c => if t.id = c.id then { t with status := TrackStatus.history } else t
    | none => t
  if t1.id = targetId then { t1 with status := TrackStatus.playing, started_at := some now }
  else t1

theorem playTrack_eq_map (store : List Track) (cur : Option Track) (target : Track) (now : ℚ) :
    playTrack true store cur target now = store.map (playStep cur target.id now) := by
  cases cur <;>
    simp only [playTrack, setHistory, setPlaying, List.map_map, Bool.not_true,
      Bool.false_eq_true, if_false] <;>
    rfl

theorem playStep_id (cur : Option Track) (tid : String) (now : ℚ) (t : Track) :
    (playStep cur tid now t).id = t.id := by
  cases cur <;> simp only [playStep] <;> split_ifs <;> rfl

theorem length_le_one_of_nodup_of_forall_eq {α : Type} {l : List α} {a : α}
    (hnd : l.Nodup) (h : ∀ x ∈ l, x = a) : l.length ≤ 1 := by
  match l with
  | [] => simp
  | [x] => simp
  | x :: y :: zs =>
    exfalso
    have hx : x = a := h x (by simp)
    have hy : y = a := h y (by simp)
    have hne : x ∉ y :: zs := (List.nodup_cons.1 hnd).1
    exact hne (by simp [hx, hy])

theorem playStep_status_playing (cur : Option Track) (tid : String) (now : ℚ) (t : Track)
    (hc : t.status = TrackStatus.playing → cacheCovers cur t = true) :
    (playStep cur tid now t).status = TrackStatus.playing →
      (playStep cur tid now t).id = tid := by
  cases cur with
  | none =>
    by_cases h : t.id = tid
    · intro _
      simp only [playStep, if_pos h]
      exact h
    · simp only [playStep, if_neg h]
      intro hp
      have := hc hp
      simp [cacheCovers] at this
  | some c =>
    by_cases h1 : t.id = c.id
    · simp only [playStep, if_pos h1]
      by_cases h2 : t.id = tid
      · intro _
        rw [if_pos (show ({ t with status := TrackStatus.history } : Track).id = tid from h2)]
        exact h2
      · rw [if_neg (show ¬({ t with status := TrackStatus.history } : Track).id = tid from h2)]
        intro hp
        simp at hp
    · simp only [playStep, if_neg h1]
      by_cases h2 : t.id = tid
      · intro _
        rw [if_pos h2]
        exact h2
      · rw [if_neg h2]
        intro hp
        have := hc hp
        simp [cacheCovers, h1] at this

/-- C1, the claim as stated, is false: `playTrack` demotes the cached
`currentTrack`, not the playing row re-derived from the store, so with a stale
cache (here `currentTrack = none` while row X is playing) the transition leaves
two rows in status playing. -/
theorem C1_counterexample :
    countPlaying [trackX5, trackY] = 1 ∧
    countPlaying (playTrack true [trackX5, trackY] none trackY 1000) = 2 := by
  decide

/-- C1 (amended): provided the cached `currentTrack` covers every playing row of
the store and row ids are distinct, the `playTrack` transition (demote the
cached current track to history, then set the target playing) leaves at most
one row with status playing. -/
theorem C1_play_preserves_onePlaying (store : List Track) (cur : Option Track)
    (target : Track) (now : ℚ)
    (hnd : (store.map Track.id).Nodup)
    (hcons : consistentCache store cur = true) :
    countPlaying (playTrack true store cur target now) ≤ 1 := by
  rw [playTrack_eq_map]
  simp only [consistentCache, List.all_eq_true] at hcons
  have hall : ∀ t ∈ store, t.status = TrackStatus.playing → cacheCovers cur t = true := by
    intro t ht hp
    have h := hcons t ht
    rw [Bool.or_eq_true] at h
    rcases h with h | h
    · exfalso; simp [hp] at h
    · exact h
  have hids : (store.map (playStep cur target.id now)).map Track.id = store.map Track.id := by
    rw [List.map_map]
    exact List.map_congr_left fun t _ => playStep_id cur target.id now t
  have hkey : ((((store.map (playStep cur target.id now)).filter
      (fun t => t.status == TrackStatus.playing))).map Track.id).length ≤ 1 := by
    apply length_le_one_of_nodup_of_forall_eq (a := target.id)
    · have hsub : (((store.map (playStep cur target.id now)).filter
          (fun t => t.status == TrackStatus.playing))).Sublist
          (store.map (playStep cur target.id now)) := List.filter_sublist _
      have hsubm := hsub.map Track.id
      rw [hids] at hsubm
      exact List.Nodup.sublist hsubm hnd
    · intro x hx
      rcases List.mem_map.1 hx with ⟨u, hu, rfl⟩
      rcases List.mem_filter.1 hu with ⟨humem, hup⟩
      rcases List.mem_map.1 humem with ⟨t, htmem, rfl⟩
      exact playStep_status_playing cur target.id now t (hall t htmem) (by simpa using hup)
  simpa [countPlaying] using hkey

/-- Witness for `C1_play_preserves_onePlaying` at a concrete consistent state. -/
theorem C1_witness :
    countPlaying (playTrack true [trackX5, trackY] (some trackX5) trackY 1000) ≤ 1 :=
  C1_play_preserves_onePlaying [trackX5, trackY] (some trackX5) trackY 1000
    (by decide) (by decide)

/-- C4, the claim as stated, is false: the invariant "`started_at` is non-null
exactly while status is playing" holds before the transition but not after,
because `playTrack`'s demotion update sets only `status: 'history'` and leaves
the old `started_at` in place. -/
theorem C4_counterexample :
    startedAtIffPlaying [trackX5, trackY] = true ∧
    playTrack true [trackX5, trackY] (some trackX5) trackY 1000 =
      [{ trackX5 with status := TrackStatus.history },
       { trackY with status := TrackStatus.playing, started_at := some 1000 }] ∧
    startedAtIffPlaying (playTrack true [trackX5, trackY] (some trackX5) trackY 1000)
      = false := by
  decide

/-- C4 (amended): `started_at` is set to now on `playTrack`'s transition of the
target row to playing and cleared on `pauseTrack`'s transition to queued, but
the demotion of the previous track to history leaves `started_at` untouched, so
a history row can retain a non-null `started_at`. -/
theorem C4_startedAt_lifecycle (store : List Track) (cur : Option Track) (target : Track)
    (now : ℚ) (c t : Track) :
    (∀ u ∈ playTrack true store cur target now,
        u.id = target.id → u.status = TrackStatus.playing ∧ u.started_at = some now) ∧
    (cur = some c → c.id ≠ target.id → t ∈ store → t.id = c.id →
        { t with status := TrackStatus.history } ∈ playTrack true store cur target now ∧
        ({ t with status := TrackStatus.history } : Track).started_at = t.started_at) ∧
    (∀ u ∈ pauseTrack true store (some c),
        u.id = c.id → u.status = TrackStatus.queued ∧ u.started_at = none) := by
  refine ⟨?_, ?_, ?_⟩
  · intro u hu huid
    rw [playTrack_eq_map] at hu
    rcases List.mem_map.1 hu with ⟨s, hsmem, rfl⟩
    cases cur with
    | none =>
      by_cases h : s.id = target.id
      · simp only [playStep, if_pos h]
        exact ⟨trivial, trivial⟩
      · simp only [playStep, if_neg h] at huid
        exact absurd huid h
    | some c0 =>
      by_cases h1 : s.id = c0.id
      · by_cases h2 : s.id = target.id
        · simp only [playStep, if_pos h1,
            if_pos (show ({ s with status := TrackStatus.history } : Track).id = target.id
              from h2)]
          exact ⟨trivial, trivial⟩
        · simp only [playStep, if_pos h1,
            if_neg (show ¬({ s with status := TrackStatus.history } : Track).id = target.id
              from h2)] at huid
          exact absurd huid h2
      · by_cases h2 : s.id = target.id
        · simp only [playStep, if_neg h1, if_pos h2]
          exact ⟨trivial, trivial⟩
        · simp only [playStep, if_neg h1, if_neg h2] at huid
          exact absurd huid h2
  · intro hcur hne htmem htid
    subst hcur
    constructor
    · rw [playTrack_eq_map]
      refine List.mem_map.2 ⟨t, htmem, ?_⟩
      have hne' : ¬ t.id = target.id := by
        rw [htid]; exact hne
      simp only [playStep, if_pos htid,
        if_neg (show ¬({ t with status := TrackStatus.history } : Track).id = target.id
          from hne')]
    · rfl
  · intro u hu huid
    simp only [pauseTrack] at hu
    rcases List.mem_map.1 hu with ⟨s, hsmem, rfl⟩
    by_cases h : s.id = c.id
    · simp only [if_pos h]
      exact ⟨trivial, trivial⟩
    · simp only [if_neg h] at huid
      exact absurd huid h

/-- Witness for `C4_startedAt_lifecycle`: the demotion of playing row X by
`playTrack` keeps its stale `started_at`, and `pauseTrack` clears it. -/
theorem C4_witness :
    ({ trackX5 with status := TrackStatus.history } ∈
        playTrack true [trackX5, trackY] (some trackX5) trackY 1000) ∧
    ({ trackX5 with status := TrackStatus.history } : Track).started_at = some 5 :=
  ⟨((C4_startedAt_lifecycle [trackX5, trackY] (some trackX5) trackY 1000 trackX5 trackX5).2.1
      rfl (by decide) (by decide) rfl).1,
   rfl⟩

/-- Result of one run of the audio-sync step: the (possibly reassigned) local
audio position and whether `playNextTrack()` was invoked. -/
structure SyncResult where
  pos : ℚ
  advance : Bool
deriving DecidableEq, Repr

/-- The audio-sync step (the effect guarded by
`currentTrack.status === 'playing' && currentTrack.started_at`):
`seekTime = (now - startTime) / 1000`, clamped at 0; then the guard
`currentTrack.duration_seconds && seekTime > duration_seconds` (note that a
zero duration is falsy, like null) returns after invoking `playNextTrack()`
for the admin only; otherwise the position is reassigned exactly when it
drifts from `seekTime` by more than 2 seconds. -/
def audioSync (status : TrackStatus) (startedAtMs : Option ℚ) (nowMs : ℚ)
    (playerPos : ℚ) (durationSeconds : Option ℚ) (isAdmin : Bool) : SyncResult :=
  match status, startedAtMs with
  | TrackStatus.playing, some st =>
    let seekTime0 : ℚ := (nowMs - st) / 1000
    let seekTime : ℚ := if seekTime0 < 0 then 0 else seekTime0
    let durationGuard : Bool :=
      match durationSeconds with
      | some d => !(d == 0) && decide (d < seekTime)
      | none => false
    if durationGuard then { pos := playerPos, advance := isAdmin }
    else if 2 < |playerPos - seekTime| then { pos := seekTime, advance := false }
    else { pos := playerPos, advance := false }
  | _, _ => { pos := playerPos, advance := false }

theorem clamp_eq_max (x : ℚ) : (if x < 0 then 0 else x) = max 0 x := by
  rcases lt_or_le x 0 with h | h
  · rw [if_pos h, max_eq_left h.le]
  · rw [if_neg (not_lt.2 h), max_eq_right h]

/-- C2: for a playing track with a parsable `started_at`, and outside the
auto-advance case (no known nonzero duration exceeded by the offset), the sync
step computes offset = (now - started_at)/1000 clamped at 0, reassigns the
local position to that offset exactly when the current position differs from it
by more than 2 seconds, leaves it unchanged otherwise, and never advances. -/
theorem C2_offset_seek (st nowMs pos : ℚ) (dur : Option ℚ) (adm : Bool)
    (hng : ∀ d, dur = some d → d = 0 ∨ max 0 ((nowMs - st) / 1000) ≤ d) :
    audioSync TrackStatus.playing (some st) nowMs pos dur adm =
      { pos := if 2 < |pos - max 0 ((nowMs - st) / 1000)| then max 0 ((nowMs - st) / 1000)
               else pos,
        advance := false } := by
  cases dur with
  | none =>
    simp only [audioSync, clamp_eq_max, Bool.false_eq_true, if_false]
    split_ifs <;> rfl
  | some d =>
    rcases hng d rfl with h0 | hle
    · subst h0
      simp only [audioSync, clamp_eq_max, beq_self_eq_true, Bool.not_true, Bool.false_and,
        Bool.false_eq_true, if_false]
      split_ifs <;> rfl
    · simp only [audioSync, clamp_eq_max, decide_eq_false (not_lt.2 hle), Bool.and_false,
        Bool.false_eq_true, if_false]
      split_ifs <;> rfl

/-- Witness for `C2_offset_seek`: the spec's example, `started_at = T0`,
`now = T0 + 42s`, `duration_seconds = 200`: the computed offset is 42, the
position (0) is off by more than 2s and is reassigned to 42, and no
auto-advance fires. -/
theorem C2_witness :
    audioSync TrackStatus.playing (some 0) 42000 0 (some 200) true =
      { pos := 42, advance := false } := by
  have h := C2_offset_seek 0 42000 0 (some 200) true
    (by intro d hd; rcases Option.some.inj hd with rfl; right; rw [max_eq_right] <;> norm_num)
  rw [h]
  have hmax : max (0 : ℚ) ((42000 - 0) / 1000) = 42 := by
    rw [max_eq_right] <;> norm_num
  rw [hmax]
  have habs : |(0 : ℚ) - 42| = 42 := by
    rw [abs_sub_comm, abs_of_nonneg] <;> norm_num
  rw [habs]
  norm_num

/-- C3, the claim as stated, is false at `duration_seconds = 0`: zero is a
known duration and the computed offset (5) strictly exceeds it, yet the step
still seeks (the JS guard `duration_seconds && ...` treats 0 as falsy) and does
not invoke `playNextTrack()` even for the admin. -/
theorem C3_counterexample :
    audioSync TrackStatus.playing (some 0) 5000 10 (some 0) true =
      { pos := 5, advance := false } ∧
    (0 : ℚ) < max 0 ((5000 - 0) / 1000) := by
  constructor
  · simp only [audioSync, beq_self_eq_true, Bool.not_true, Bool.false_and,
      Bool.false_eq_true, if_false]
    have h5 : ((5000 : ℚ) - 0) / 1000 = 5 := by norm_num
    rw [h5]
    have habs : |(10 : ℚ) - if (5 : ℚ) < 0 then 0 else 5| = 5 := by
      rw [if_neg (by norm_num), abs_of_nonneg] <;> norm_num
    rw [habs, if_pos (by norm_num), if_neg (by norm_num)]
  · rw [max_eq_right] <;> norm_num

/-- C3 (amended): whenever `duration_seconds` is known and nonzero and the
computed offset strictly exceeds it, the sync step performs no seek and invokes
`playNextTrack()` exactly when the local client is the admin. -/
theorem C3_overflow_advance (st nowMs pos d : ℚ) (adm : Bool)
    (hd0 : d ≠ 0)
    (hex : d < max 0 ((nowMs - st) / 1000)) :
    audioSync TrackStatus.playing (some st) nowMs pos (some d) adm =
      { pos := pos, advance := adm } := by
  have hguard : (!(d == 0) && decide (d < max 0 ((nowMs - st) / 1000))) = true := by
    simp [hd0, hex]
  simp only [audioSync, clamp_eq_max, hguard, if_true]

/-- Witness for `C3_overflow_advance`: the spec's boundary example,
`duration_seconds = 30` and elapsed 31s — the admin client advances and a
non-admin client does not; neither seeks. -/
theorem C3_witness :
    audioSync TrackStatus.playing (some 0) 31000 7 (some 30) true =
      { pos := 7, advance := true } ∧
    audioSync TrackStatus.playing (some 0) 31000 7 (some 30) false =
      { pos := 7, advance := false } := by
  have h30 : (30 : ℚ) < max 0 ((31000 - 0) / 1000) := by
    rw [max_eq_right] <;> norm_num
  exact ⟨C3_overflow_advance 0 31000 7 30 true (by norm_num) h30,
    C3_overflow_advance 0 31000 7 30 false (by norm_num) h30⟩

/-- A row of `radio_messages`, restricted to the fields ordering uses. -/
structure RadioMessage where
  id : String
  created_at : ℚ
deriving DecidableEq, Repr

/-- The `radio_messages` INSERT notification handler: the fetched row is
appended to the rendered list, `setMessages(prev => [...prev, msg])`. -/
def handleMessageInsert (prev : List RadioMessage) (msg : RadioMessage) :
    List RadioMessage :=
  prev ++ [msg]

/-- Is the rendered list in ascending `created_at` order? -/
def orderedByCreatedAt : List RadioMessage → Bool
  | [] => true
  | [_] => true
  | a :: b :: rest => decide (a.created_at ≤ b.created_at) && orderedByCreatedAt (b :: rest)

def msgA : RadioMessage := { id := "a", created_at := 1 }

def msgB : RadioMessage := { id := "b", created_at := 2 }

/-- C5, the claim as stated, is false: the INSERT handler appends each arriving
message at the end of the rendered list, so when the message with the larger
`created_at` (here B, t2 = 2) is delivered before the one with the smaller
`created_at` (A, t1 = 1), the rendered order is [B, A] — B is rendered before A
and the list is not in `created_at` order; there is no sort and no id
tie-break. -/
theorem C5_counterexample :
    msgA.created_at < msgB.created_at ∧
    handleMessageInsert (handleMessageInsert [] msgB) msgA = [msgB, msgA] ∧
    orderedByCreatedAt (handleMessageInsert (handleMessageInsert [] msgB) msgA) = false := by
  refine ⟨by norm_num [msgA, msgB], rfl, ?_⟩
  simp only [handleMessageInsert, List.nil_append, List.cons_append, List.nil_append,
    orderedByCreatedAt, Bool.and_eq_false_imp]
  rw [decide_eq_false]
  · simp
  · norm_num [msgA, msgB]

/-- C5 (amended): the rendered chat list reflects arrival order for realtime
inserts (each arriving message is appended at the tail), so it stays in
ascending `created_at` order exactly when notifications arrive in
`created_at` order: appending a message no older than every rendered one
preserves orderedness. -/
theorem C5_insert_in_order_sorted (prev : List RadioMessage) (m : RadioMessage)
    (hsorted : orderedByCreatedAt prev = true)
    (hle : ∀ x ∈ prev, x.created_at ≤ m.created_at) :
    orderedByCreatedAt (handleMessageInsert prev m) = true := by
  induction prev with
  | nil => rfl
  | cons a rest ih =>
    cases rest with
    | nil =>
      simp only [handleMessageInsert, List.cons_append, List.nil_append, orderedByCreatedAt,
        Bool.and_eq_true, decide_eq_true_eq]
      exact ⟨hle a (by simp), trivial⟩
    | cons b rest2 =>
      simp only [orderedByCreatedAt, Bool.and_eq_true, decide_eq_true_eq] at hsorted
      have ih2 := ih hsorted.2 (fun x hx => hle x (List.mem_cons_of_mem a hx))
      simp only [handleMessageInsert, List.cons_append] at ih2 ⊢
      simp only [orderedByCreatedAt, Bool.and_eq_true, decide_eq_true_eq]
      exact ⟨hsorted.1, by simpa using ih2⟩

/-- Witness for `C5_insert_in_order_sorted`: B (t2 = 2) arriving after a list
holding A (t1 = 1) renders in order [A, B]. -/
theorem C5_witness : orderedByCreatedAt (handleMessageInsert [msgA] msgB) = true :=
  C5_insert_in_order_sorted [msgA] msgB rfl
    (by intro x hx; rcases List.mem_singleton.1 hx with rfl; norm_num [msgA, msgB])

/-- The slice of an `RTCPeerConnection` the ice-candidate handlers touch:
whether a remote description has been set, and the candidates successfully
added. -/
structure RTCPeer where
  remoteDescriptionSet : Bool
  appliedCandidates : List String
deriving DecidableEq, Repr

/-- Modelled environment semantics (WebRTC): `addIceCandidate` succeeds only
once a remote description has been set on the connection; before that it
rejects, returning no updated connection. -/
def addIceCandidate (pc : RTCPeer) (c : String) : Option RTCPeer :=
  if pc.remoteDescriptionSet then
    some { pc with appliedCandidates := pc.appliedCandidates ++ [c] }
  else none

/-- The `ice-candidate` broadcast handler, identical in shape in
`setupVoiceChannel` (admin) and `setupVoiceReceiver` (listener): if the peer
connection and the payload candidate exist, `addIceCandidate` is awaited inside
try/catch; a rejection is logged and otherwise ignored, leaving the connection
unchanged — the candidate is kept nowhere. -/
def onIceCandidateMsg (pc : Option RTCPeer) (payload : Option String) : Option RTCPeer :=
  match pc, payload with
  | some p, some c =>
    match addIceCandidate p c with
    | some p2 => some p2
    | none => some p
  | p, _ => p

/-- `setRemoteDescription` on the peer connection. -/
def setRemoteDescription (pc : RTCPeer) : RTCPeer := { pc with remoteDescriptionSet := true }

/-- C6, the claim as stated, is false: a candidate delivered before the remote
description is set leaves the handler state exactly as it was — nothing is
buffered — so after the remote description is set the candidate still has not
been applied and never will be: it was dropped. -/
theorem C6_counterexample :
    onIceCandidateMsg (some { remoteDescriptionSet := false, appliedCandidates := [] })
        (some "c1") =
      some { remoteDescriptionSet := false, appliedCandidates := [] } ∧
    (setRemoteDescription { remoteDescriptionSet := false, appliedCandidates := [] }
      ).appliedCandidates = [] := by
  exact ⟨rfl, rfl⟩

/-- C6 (amended): an ice-candidate arriving before the remote description is
set is attempted immediately, fails, and is dropped (the rejection is caught
and logged; no buffering exists), leaving the connection unchanged; a candidate
arriving after the remote description is set is applied. -/
theorem C6_ice_candidate (p : RTCPeer) (c : String) :
    (p.remoteDescriptionSet = false → onIceCandidateMsg (some p) (some c) = some p) ∧
    (p.remoteDescriptionSet = true →
      onIceCandidateMsg (some p) (some c) =
        some { p with appliedCandidates := p.appliedCandidates ++ [c] }) := by
  constructor
  · intro h
    simp [onIceCandidateMsg, addIceCandidate, h]
  · intro h
    simp [onIceCandidateMsg, addIceCandidate, h]

/-- Witness for `C6_ice_candidate`: both branches at concrete connections. -/
theorem C6_witness :
    onIceCandidateMsg (some { remoteDescriptionSet := false, appliedCandidates := ["a0"] })
        (some "c1") =
      some { remoteDescriptionSet := false, appliedCandidates := ["a0"] } ∧
    onIceCandidateMsg (some { remoteDescriptionSet := true, appliedCandidates := [] })
        (some "c1") =
      some { remoteDescriptionSet := true, appliedCandidates := ["c1"] } :=
  ⟨(C6_ice_candidate { remoteDescriptionSet := false, appliedCandidates := ["a0"] } "c1").1
      rfl,
   (C6_ice_candidate { remoteDescriptionSet := true, appliedCandidates := [] } "c1").2 rfl⟩

/-- Outcome of a transport control: `stop` encodes
`setIsPlaying(false); setCurrentTrack(null)`, `playT t` encodes `playTrack(t)`,
`noop` encodes returning without touching playback state. -/
inductive QueueAction
  | stop
  | playT (t : Track)
  | noop
deriving DecidableEq, Repr

/-- `tracks.filter(t => t.status !== 'history')`. -/
def availableTracks (tracks : List Track) : List Track :=
  tracks.filter fun t => t.status != TrackStatus.history

/-- `t.id === currentTrack?.id`. -/
def matchesCurrent (currentTrack : Option Track) (t : Track) : Bool :=
  match currentTrack with
  | some c => t.id == c.id
  | none => false

/-- `const currentAvailableIdx = availableTracks.findIndex(t => t.id ===
currentTrack?.id)`: a JS `findIndex`, -1 when absent. -/
def currentIdxInt (available : List Track) (currentTrack : Option Track) : Int :=
  match available.findIdx? (matchesCurrent currentTrack) with
  | some i => (i : Int)
  | none => -1

/-- `let nextIdx = currentAvailableIdx + 1; if (nextIdx >= length) nextIdx = 0`. -/
def nextIdxInt (len : Nat) (idx : Int) : Int :=
  if idx + 1 ≥ (len : Int) then 0 else idx + 1

/-- The source's redundant single-track special case:
`if (length === 1 && currentAvailableIdx === 0) nextIdx = 0`. -/
def nextIdx2Int (len : Nat) (idx : Int) : Int :=
  if len = 1 ∧ idx = 0 then 0 else nextIdxInt len idx

/-- `let prevIdx = currentAvailableIdx - 1; if (prevIdx < 0) prevIdx = length - 1`. -/
def prevIdxInt (len : Nat) (idx : Int) : Int :=
  if idx - 1 < 0 then (len : Int) - 1 else idx - 1

/-- `playNextTrack()`: over the non-history tracks, `findIndex` of the current
track (-1 when absent), advance by one wrapping to 0 at the end, with the
source's redundant single-track special case; an empty list stops playback and
clears the current track. -/
def playNextTrack (isAdmin : Bool) (tracks : List Track) (currentTrack : Option Track) :
    QueueAction :=
  if !isAdmin then QueueAction.noop
  else if (availableTracks tracks).length = 0 then QueueAction.stop
  else
    match (availableTracks tracks).get?
        (nextIdx2Int (availableTracks tracks).length
          (currentIdxInt (availableTracks tracks) currentTrack)).toNat with
    | some t => QueueAction.playT t
    | none => QueueAction.noop

/-- `playPreviousTrack()`: like `playNextTrack` but stepping back, wrapping to
the last index below 0; on an empty non-history list it only logs and returns —
it does not stop playback or clear the current track. -/
def playPreviousTrack (isAdmin : Bool) (tracks : List Track) (currentTrack : Option Track) :
    QueueAction :=
  if !isAdmin then QueueAction.noop
  else if (availableTracks tracks).length = 0 then QueueAction.noop
  else
    match (availableTracks tracks).get?
        (prevIdxInt (availableTracks tracks).length
          (currentIdxInt (availableTracks tracks) currentTrack)).toNat with
    | some t => QueueAction.playT t
    | none => QueueAction.noop

def trackH1 : Track := { id := "H1", status := TrackStatus.history }

def trackH2 : Track := { id := "H2", status := TrackStatus.history }

/-- C8, the claim as stated, is false on the empty non-history list: `next()`
stops playback and clears the current track, but `previous()` merely returns,
leaving playback state untouched. -/
theorem C8_counterexample :
    availableTracks [trackH1, trackH2] = [] ∧
    playNextTrack true [trackH1, trackH2] (some trackH1) = QueueAction.stop ∧
    playPreviousTrack true [trackH1, trackH2] (some trackH1) = QueueAction.noop ∧
    QueueAction.noop ≠ QueueAction.stop := by
  refine ⟨by decide, by decide, by decide, by decide⟩

theorem get?_eq_some_getD {α : Type} (l : List α) (n : Nat) (h : n < l.length) (d : α) :
    l.get? n = some (l.getD n d) := by
  induction l generalizing n with
  | nil => simp at h
  | cons a as ih =>
    cases n with
    | zero => rfl
    | succ m =>
      simpa [List.get?, List.getD] using ih m (by simpa using h)

theorem nextIdx2Int_toNat (len i : Nat) (hi : i < len) :
    (nextIdx2Int len (i : Int)).toNat = (i + 1) % len := by
  unfold nextIdx2Int nextIdxInt
  rcases Nat.lt_or_ge (i + 1) len with hlt | hge
  · rw [Nat.mod_eq_of_lt hlt]
    rw [if_neg (by omega), if_neg (by omega)]
    omega
  · have heq : i + 1 = len := by omega
    rw [heq, Nat.mod_self]
    by_cases h1 : len = 1 ∧ (i : Int) = 0
    · rw [if_pos h1]
      rfl
    · rw [if_neg h1, if_pos (by omega)]
      rfl

theorem prevIdxInt_toNat (len i : Nat) (hi : i < len) :
    (prevIdxInt len (i : Int)).toNat = (i + len - 1) % len := by
  unfold prevIdxInt
  rcases Nat.eq_zero_or_pos i with rfl | hpos
  · rw [if_pos (by omega)]
    have hmod : (0 + len - 1) % len = len - 1 := by
      rw [Nat.zero_add]
      exact Nat.mod_eq_of_lt (by omega)
    rw [hmod]
    omega
  · rw [if_neg (by omega)]
    have h1 : i + len - 1 = (i - 1) + len := by omega
    rw [h1, Nat.add_mod_right, Nat.mod_eq_of_lt (by omega)]
    omega

theorem playNextTrack_found (tracks : List Track) (cur : Option Track) (i : Nat)
    (hi : i < (availableTracks tracks).length)
    (hfind : (availableTracks tracks).findIdx? (matchesCurrent cur) = some i) :
    playNextTrack true tracks cur =
      QueueAction.playT ((availableTracks tracks).getD
        ((i + 1) % (availableTracks tracks).length) trackH1) := by
  have hlen : 0 < (availableTracks tracks).length := Nat.lt_of_le_of_lt (Nat.zero_le i) hi
  simp only [playNextTrack, Bool.not_true, Bool.false_eq_true, if_false, currentIdxInt, hfind]
  rw [if_neg (by omega)]
  rw [nextIdx2Int_toNat _ i hi]
  rw [get?_eq_some_getD _ _ (Nat.mod_lt _ hlen) trackH1]

theorem playPreviousTrack_found (tracks : List Track) (cur : Option Track) (i : Nat)
    (hi : i < (availableTracks tracks).length)
    (hfind : (availableTracks tracks).findIdx? (matchesCurrent cur) = some i) :
    playPreviousTrack true tracks cur =
      QueueAction.playT ((availableTracks tracks).getD
        ((i + (availableTracks tracks).length - 1) % (availableTracks tracks).length)
        trackH1) := by
  have hlen : 0 < (availableTracks tracks).length := Nat.lt_of_le_of_lt (Nat.zero_le i) hi
  simp only [playPreviousTrack, Bool.not_true, Bool.false_eq_true, if_false, currentIdxInt,
    hfind]
  rw [if_neg (by omega)]
  rw [prevIdxInt_toNat _ i hi]
  rw [get?_eq_some_getD _ _ (Nat.mod_lt _ hlen) trackH1]

/-- C8 (amended): `next()` and `previous()` operate over the ordered non-history
list with index arithmetic wrapping modulo its length — `next()` from index i
plays index (i+1) mod n (so the last wraps to the first, and a sole non-history
track is replayed), `previous()` from index i plays index (i+n-1) mod n (so the
first wraps to the last) — and on an empty non-history list `next()` stops
playback and clears the current track while `previous()` is a no-op that leaves
playback state unchanged. -/
theorem C8_wraparound (tracks : List Track) (cur : Option Track) :
    (availableTracks tracks = [] →
        playNextTrack true tracks cur = QueueAction.stop ∧
        playPreviousTrack true tracks cur = QueueAction.noop) ∧
    (∀ i : Nat, i < (availableTracks tracks).length →
        (availableTracks tracks).findIdx? (matchesCurrent cur) = some i →
        playNextTrack true tracks cur =
          QueueAction.playT ((availableTracks tracks).getD
            ((i + 1) % (availableTracks tracks).length) trackH1) ∧
        playPreviousTrack true tracks cur =
          QueueAction.playT ((availableTracks tracks).getD
            ((i + (availableTracks tracks).length - 1) %
              (availableTracks tracks).length) trackH1)) := by
  constructor
  · intro h
    constructor <;> simp [playNextTrack, playPreviousTrack, h]
  · intro i hi hfind
    exact ⟨playNextTrack_found tracks cur i hi hfind,
      playPreviousTrack_found tracks cur i hi hfind⟩

/-- Witness for `C8_wraparound`: the spec's scenario — channel
[A (queued, current), B (history)]: `next()` skips the history track and wraps
back to A, the sole non-history track; `previous()` does the same. -/
theorem C8_witness :
    playNextTrack true [trackY, trackH1] (some trackY) = QueueAction.playT trackY ∧
    playPreviousTrack true [trackY, trackH1] (some trackY) = QueueAction.playT trackY := by
  have h := (C8_wraparound [trackY, trackH1] (some trackY)).2 0 (by decide) (by decide)
  refine ⟨?_, ?_⟩
  · rw [h.1]
    rfl
  · rw [h.2]
    rfl

/-- A write issued against the row store. -/
structure StoreWrite where
  table : String
  op : String
  rowId : String
deriving DecidableEq, Repr

/-- A user-visible message produced via `showToast(msg, type)`. -/
structure Toast where
  msg : String
  type : String
deriving DecidableEq, Repr

/-- Store writes and toasts issued by `playTrack(track)`: the non-admin guard
returns before any network call and shows no toast; for the admin it updates
the cached current track (if any) and then the target. -/
def playTrackEff (isAdmin : Bool) (currentTrack : Option Track) (target : Track) :
    List StoreWrite × List Toast :=
  if !isAdmin then ([], [])
  else
    ((match currentTrack with
      | some c => [{ table := "radio_tracks", op := "update", rowId := c.id }]
      | none => []) ++
      [{ table := "radio_tracks", op := "update", rowId := target.id }], [])

/-- Store writes and toasts issued by `pauseTrack()`: the guard
`if (!isAdmin || !currentTrack) return;` is silent. -/
def pauseTrackEff (isAdmin : Bool) (currentTrack : Option Track) :
    List StoreWrite × List Toast :=
  match isAdmin, currentTrack with
  | true, some c => ([{ table := "radio_tracks", op := "update", rowId := c.id }], [])
  | _, _ => ([], [])

/-- Store writes and toasts issued by `playNextTrack()`: the non-admin guard
returns silently; the admin path either stops locally (no write) or delegates
to `playTrack`. -/
def playNextTrackEff (isAdmin : Bool) (tracks : List Track) (currentTrack : Option Track) :
    List StoreWrite × List Toast :=
  if !isAdmin then ([], [])
  else
    match playNextTrack true tracks currentTrack with
    | QueueAction.playT t => playTrackEff true currentTrack t
    | _ => ([], [])

/-- Store writes and toasts issued by `playPreviousTrack()`: the non-admin
guard returns silently; the admin path either returns (no write) or delegates
to `playTrack`. -/
def playPreviousTrackEff (isAdmin : Bool) (tracks : List Track)
    (currentTrack : Option Track) : List StoreWrite × List Toast :=
  if !isAdmin then ([], [])
  else
    match playPreviousTrack true tracks currentTrack with
    | QueueAction.playT t => playTrackEff true currentTrack t
    | _ => ([], [])

/-- Inputs of one `deleteTrack()` run: the admin flag, the track selected in
the confirmation modal, the cached current track, the row store's response to
the delete, and the local track list. -/
structure DeleteInput where
  isAdmin : Bool
  trackToDelete : Option Track
  currentTrack : Option Track
  deleteError : Option String
  tracks : List Track
deriving DecidableEq, Repr

/-- Outputs of one `deleteTrack()` run. -/
structure DeleteResult where
  writes : List StoreWrite
  toasts : List Toast
  tracks : List Track
deriving DecidableEq, Repr

/-- `deleteTrack()`: guarded by `if (!isAdmin || !trackToDelete) return;`
(silent).  For the admin it pauses the track if it is the current one, issues
the row delete, and on a store error shows an error toast and returns with the
local list untouched; only on a delete that returned no error does it show the
success toast and filter the track out of the local list.  (The best-effort
blob removal touches only the blob store and is elided.) -/
def deleteTrack (inp : DeleteInput) : DeleteResult :=
  match inp.isAdmin, inp.trackToDelete with
  | true, some tr =>
    let pauseWrites : List StoreWrite :=
      match inp.currentTrack with
      | some c =>
          if c.id = tr.id then [{ table := "radio_tracks", op := "update", rowId := c.id }]
          else []
      | none => []
    let delWrites := pauseWrites ++ [{ table := "radio_tracks", op := "delete", rowId := tr.id }]
    match inp.deleteError with
    | some e =>
        { writes := delWrites,
          toasts := [{ msg := "Error al eliminar: " ++ e, type := "error" }],
          tracks := inp.tracks }
    | none =>
        { writes := delWrites,
          toasts := [{ msg := "Pista eliminada correctamente", type := "success" }],
          tracks := inp.tracks.filter fun t => t.id != tr.id }
  | _, _ => { writes := [], toasts := [], tracks := inp.tracks }

/-- C7, the claim as stated, is false in its "surfaced to the user" half: a
non-admin invocation issues no store write or delete (that half holds), but it
also produces no toast at all — the rejection is silent.  (`DeleteInput` fields
in order: isAdmin, trackToDelete, currentTrack, deleteError, tracks.) -/
theorem C7_counterexample :
    playTrackEff false none trackY = ([], []) ∧
    (deleteTrack ⟨false, some trackY, none, none, [trackY]⟩).writes = [] ∧
    (deleteTrack ⟨false, some trackY, none, none, [trackY]⟩).toasts = [] := by
  exact ⟨rfl, rfl, rfl⟩

/-- C7 (amended): every Queue Manager mutation invoked by a non-admin is
rejected locally before any network call — no store write or delete is issued
and the local track list is untouched — but silently: no user-visible message
is produced. -/
theorem C7_nonadmin_silent (cur : Option Track) (target : Track) (tracks ts : List Track)
    (ttd : Option Track) (de : Option String) :
    playTrackEff false cur target = ([], []) ∧
    pauseTrackEff false cur = ([], []) ∧
    playNextTrackEff false tracks cur = ([], []) ∧
    playPreviousTrackEff false tracks cur = ([], []) ∧
    deleteTrack ⟨false, ttd, cur, de, ts⟩ = ⟨[], [], ts⟩ := by
  refine ⟨rfl, ?_, rfl, rfl, ?_⟩
  · cases cur <;> rfl
  · cases ttd <;> rfl

/-- C10: when the row deletion returns an error, `deleteTrack` leaves the local
track list unchanged — removal happens only on an error-free deletion, which
filters the row out — and the failure is surfaced as an error toast.
(`DeleteInput` fields in order: isAdmin, trackToDelete, currentTrack,
deleteError, tracks.) -/
theorem C10_delete_error_handling (tr : Track) (cur : Option Track) (de : Option String)
    (ts : List Track) :
    (∀ e, de = some e →
        (deleteTrack ⟨true, some tr, cur, de, ts⟩).tracks = ts ∧
        ({ msg := "Error al eliminar: " ++ e, type := "error" } : Toast) ∈
          (deleteTrack ⟨true, some tr, cur, de, ts⟩).toasts) ∧
    (de = none →
        (deleteTrack ⟨true, some tr, cur, de, ts⟩).tracks =
          ts.filter (fun t => t.id != tr.id) ∧
        ({ msg := "Pista eliminada correctamente", type := "success" } : Toast) ∈
          (deleteTrack ⟨true, some tr, cur, de, ts⟩).toasts) := by
  constructor
  · rintro e rfl
    cases cur with
    | none => exact ⟨rfl, by simp [deleteTrack]⟩
    | some c => exact ⟨rfl, by simp [deleteTrack]⟩
  · rintro rfl
    cases cur with
    | none => exact ⟨rfl, by simp [deleteTrack]⟩
    | some c => exact ⟨rfl, by simp [deleteTrack]⟩

/-- Witness for `C10_delete_error_handling`: a failing delete of Y keeps the
local list and surfaces the error; an error-free delete removes Y. -/
theorem C10_witness :
    (deleteTrack ⟨true, some trackY, none, some "db down", [trackY]⟩).tracks = [trackY] ∧
    ({ msg := "Error al eliminar: db down", type := "error" } : Toast) ∈
      (deleteTrack ⟨true, some trackY, none, some "db down", [trackY]⟩).toasts ∧
    (deleteTrack ⟨true, some trackY, none, none, [trackY]⟩).tracks = [] := by
  refine ⟨?_, ?_, ?_⟩
  · exact ((C10_delete_error_handling trackY none (some "db down") [trackY]).1
      "db down" rfl).1
  · exact ((C10_delete_error_handling trackY none (some "db down") [trackY]).1
      "db down" rfl).2
  · have h := ((C10_delete_error_handling trackY none none [trackY]).2 rfl).1
    rw [h]
    rfl

/-- `const targetVol = isVoiceOver ? volume * 0.2 : volume`. -/
def duckTarget (isVoiceOver : Bool) (volume : ℚ) : ℚ :=
  if isVoiceOver then volume * 0.2 else volume

/-- One 50ms tick of the fade interval: snap to the target once within one
step (0.05) of it, otherwise move one step towards it. -/
def fadeStep (v target : ℚ) : ℚ :=
  if |v - target| < 0.05 then target
  else if v > target then v - 0.05 else v + 0.05

/-- `n` ticks of the fade interval. -/
def fadeIter : Nat → ℚ → ℚ → ℚ
  | 0, v, _ => v
  | n + 1, v, target => fadeIter n (fadeStep v target) target

/-- The ducking effect only starts the fade when the current volume is more
than 0.01 away from the target. -/
def duckFadeStarts (v target : ℚ) : Bool :=
  decide (|v - target| > 0.01)

/-- Listener-side receiver state touched by the `voice-stop` handler. -/
structure ReceiverState where
  isVoiceOver : Bool
  remoteSrcAttached : Bool
deriving DecidableEq, Repr

/-- The `voice-stop` broadcast handler in `setupVoiceReceiver`:
`setIsVoiceOver(false)` and detach `remoteAudioRef.current.srcObject`. -/
def onVoiceStop (_s : ReceiverState) : ReceiverState :=
  { isVoiceOver := false, remoteSrcAttached := false }

theorem fadeStep_self (t : ℚ) : fadeStep t t = t := by
  unfold fadeStep
  rw [if_pos]
  rw [sub_self, abs_zero]
  norm_num

theorem fadeIter_self (n : Nat) (t : ℚ) : fadeIter n t t = t := by
  induction n with
  | zero => rfl
  | succ m ih =>
    show fadeIter m (fadeStep t t) t = t
    rw [fadeStep_self]
    exact ih

theorem fadeIter_reaches (n : Nat) (v t : ℚ) (h : |v - t| ≤ n * (0.05 : ℚ)) :
    fadeIter n v t = t := by
  induction n generalizing v with
  | zero =>
    have h0 : |v - t| ≤ 0 := by simpa using h
    have : v - t = 0 := abs_eq_zero.1 (le_antisymm h0 (abs_nonneg _))
    have hv : v = t := by linarith
    simpa [fadeIter] using hv
  | succ m ih =>
    show fadeIter m (fadeStep v t) t = t
    by_cases hc : |v - t| < 0.05
    · rw [show fadeStep v t = t from by rw [fadeStep, if_pos hc]]
      exact fadeIter_self m t
    · have habs : (0.05 : ℚ) ≤ |v - t| := le_of_not_lt hc
      have hcast : ((m + 1 : Nat) : ℚ) = (m : ℚ) + 1 := by push_cast; ring
      rw [hcast] at h
      by_cases hgt : v > t
      · have hvt : |v - t| = v - t := abs_of_pos (by linarith)
        rw [hvt] at habs h
        have hstep : fadeStep v t = v - 0.05 := by
          rw [fadeStep, if_neg hc, if_pos hgt]
        rw [hstep]
        apply ih
        have : |v - 0.05 - t| = v - 0.05 - t := abs_of_nonneg (by linarith)
        rw [this]
        linarith
      · have hle : v ≤ t := le_of_not_lt hgt
        have hvt : |v - t| = t - v := by
          rw [abs_sub_comm]
          exact abs_of_nonneg (by linarith)
        rw [hvt] at habs h
        have hstep : fadeStep v t = v + 0.05 := by
          rw [fadeStep, if_neg hc, if_neg hgt]
        rw [hstep]
        apply ih
        have : |v + 0.05 - t| = t - (v + 0.05) := by
          rw [abs_sub_comm]
          exact abs_of_nonneg (by linarith)
        rw [this]
        linarith

/-- C9: while a voice-over is active the ducking target is 20% of the user-set
volume (and the full volume otherwise); the `voice-stop` handler clears the
voice-over state and detaches the remote stream; each fade tick moves the
volume by at most 0.05 — never one instantaneous jump — and from any starting
volume within n steps of the target, n fade ticks restore the volume exactly
to the target. -/
theorem C9_ducking (vol v t : ℚ) (s : ReceiverState) (n : Nat) :
    duckTarget true vol = vol * (1 / 5) ∧
    duckTarget false vol = vol ∧
    (onVoiceStop s).isVoiceOver = false ∧
    (onVoiceStop s).remoteSrcAttached = false ∧
    |fadeStep v t - v| ≤ 0.05 ∧
    (|v - t| ≤ n * (0.05 : ℚ) → fadeIter n v t = t) := by
  refine ⟨by norm_num [duckTarget], rfl, rfl, rfl, ?_, fadeIter_reaches n v t⟩
  unfold fadeStep
  split_ifs with h1 h2
  · calc |t - v| = |v - t| := abs_sub_comm t v
      _ ≤ 0.05 := le_of_lt h1
  · rw [show v - 0.05 - v = -(0.05 : ℚ) by ring, abs_neg, abs_of_nonneg (by norm_num)]
  · rw [show v + 0.05 - v = (0.05 : ℚ) by ring, abs_of_nonneg (by norm_num)]

/-- Witness for `C9_ducking`: a listener at volume 0.8 ducked to 0.16; 13 fade
ticks (0.64 of drift at 0.05 per tick) restore the volume exactly to 0.8. -/
theorem C9_witness :
    |(0.16 : ℚ) - 0.8| ≤ ((13 : Nat) : ℚ) * (0.05 : ℚ) ∧
    fadeIter 13 0.16 0.8 = 0.8 := by
  have hb : |(0.16 : ℚ) - 0.8| ≤ ((13 : Nat) : ℚ) * (0.05 : ℚ) := by
    rw [show (0.16 : ℚ) - 0.8 = -(0.64 : ℚ) by norm_num, abs_neg,
      abs_of_nonneg (by norm_num)]
    push_cast
    norm_num
  exact ⟨hb, (C9_ducking 1 0.16 0.8 ⟨true, true⟩ 13).2.2.2.2.2 hb⟩
